import Mathlib

set_option maxRecDepth 8192

/-!
Verification of the desktop supervisor core of the idea-validator repository.

The Rust sources under src/desktop/src-tauri/src are shallowly embedded:
pure functions become Lean functions over `List Char` / `String`; the SQLite
session store becomes explicit state passing over lists of rows; the SSE
streaming task becomes a pure function from an abstract description of the
external world (HTTP responses, byte chunks, cancellation points) to the list
of events emitted on the run's channel.  JSON values are modelled by an
inductive type `J`; `serde_json::from_str` is an external library and is
modelled as a parameter `parse : String → Option J` (concrete theorems
instantiate it at concrete JSON texts with their evident parses).
-/

/- ### Character and string utilities (Rust `str` methods) -/

/-- Unicode `White_Space` code points, the set used by Rust's
`char::is_whitespace` (and hence `str::trim` / `split_whitespace`). -/
def rustIsWS (c : Char) : Bool :=
  c = '\x09' ∨ c = '\x0a' ∨ c = '\x0b' ∨ c = '\x0c' ∨ c = '\x0d' ∨ c = ' ' ∨
  c = '\u0085' ∨ c = '\u00A0' ∨ c = '\u1680' ∨
  c = '\u2000' ∨ c = '\u2001' ∨ c = '\u2002' ∨ c = '\u2003' ∨ c = '\u2004' ∨
  c = '\u2005' ∨ c = '\u2006' ∨ c = '\u2007' ∨ c = '\u2008' ∨ c = '\u2009' ∨
  c = '\u200A' ∨ c = '\u2028' ∨ c = '\u2029' ∨ c = '\u202F' ∨ c = '\u205F' ∨
  c = '\u3000'

/-- Rust `str::trim_start` on a character list. -/
def trimStartList (l : List Char) : List Char := l.dropWhile rustIsWS

/-- Rust `str::trim` on a character list: drop whitespace from both ends. -/
def rustTrimList (l : List Char) : List Char :=
  ((l.dropWhile rustIsWS).reverse.dropWhile rustIsWS).reverse

/-- Rust `str::trim` on a `String`. -/
def rustTrim (s : String) : String := ⟨rustTrimList s.data⟩

/-- Rust `char::to_ascii_lowercase` : shift only the range A..Z. -/
def asciiLowerChar (c : Char) : Char :=
  if 'A' ≤ c ∧ c ≤ 'Z' then Char.ofNat (c.toNat + 32) else c

/-- Rust `str::to_ascii_lowercase` on a character list. -/
def asciiLowerList (l : List Char) : List Char := l.map asciiLowerChar

/-- Rust `str::to_ascii_lowercase` on a `String`. -/
def asciiLower (s : String) : String := ⟨asciiLowerList s.data⟩

/-- Rust `str::split_whitespace`: split into maximal runs of
non-whitespace characters, dropping empty pieces.  `cur` is the current word
accumulated in reverse. -/
def splitWSAux (cur : List Char) : List Char → List (List Char)
  | [] => if cur.isEmpty then [] else [cur.reverse]
  | c :: rest =>
    if rustIsWS c then
      if cur.isEmpty then splitWSAux [] rest else cur.reverse :: splitWSAux [] rest
    else
      splitWSAux (c :: cur) rest

/-- Rust `Vec::join(sep)` on character lists. -/
def joinSepL (sep : List Char) : List (List Char) → List Char
  | [] => []
  | [w] => w
  | w :: ws => w ++ sep ++ joinSepL sep ws

/-- Rust `Vec::join(sep)` on strings. -/
def joinSepStr (sep : String) : List String → String
  | [] => ""
  | [x] => x
  | x :: xs => x ++ sep ++ joinSepStr sep xs

/-- `normalize_text` from `session_store.rs`:
`value.trim().to_ascii_lowercase().split_whitespace().join(" ")`. -/
def normalize_text (value : String) : String :=
  ⟨joinSepL [' '] (splitWSAux [] (asciiLowerList (rustTrimList value.data)))⟩

/-- Whitespace normalization used by `infer_title_from_message`:
`text.trim().split_whitespace().join(" ")` (no case folding). -/
def wsNormalize (text : String) : String :=
  ⟨joinSepL [' '] (splitWSAux [] (rustTrimList text.data))⟩

/- ### Session data model (`types.rs`) -/

inductive SessionPhase where
  | IdeaInput
  | AwaitingApproval
  | Running
  | Completed
  | Failed
deriving DecidableEq, Repr

inductive RunMode where
  | Idea
  | EditPlan
  | Approve
deriving DecidableEq, Repr

/-- `is_run_mode_allowed` from `session_store.rs` (the `matches!` macro). -/
def is_run_mode_allowed (phase : SessionPhase) (run_mode : RunMode) : Bool :=
  match phase, run_mode with
  | SessionPhase.IdeaInput, RunMode.Idea => true
  | SessionPhase.AwaitingApproval, RunMode.EditPlan => true
  | SessionPhase.AwaitingApproval, RunMode.Approve => true
  | _, _ => false

/-- `phase_after_run` from `session_store.rs`. -/
def phase_after_run (run_mode : RunMode) (succeeded : Bool) : SessionPhase × Bool :=
  if succeeded then
    match run_mode with
    | RunMode.Idea | RunMode.EditPlan => (SessionPhase.AwaitingApproval, false)
    | RunMode.Approve => (SessionPhase.Completed, true)
  else
    (SessionPhase.Failed, true)

/- ### Credential masking (`keyring_store.rs`) -/

/-- UTF-8 encoded length of one character (Rust `char::len_utf8`). -/
def charUtf8Len (c : Char) : Nat :=
  if c.toNat < 0x80 then 1
  else if c.toNat < 0x800 then 2
  else if c.toNat < 0x10000 then 3
  else 4

/-- Rust `str::len`: length in UTF-8 bytes. -/
def byteLen (l : List Char) : Nat := (l.map charUtf8Len).sum

/-- Drop the first `n` UTF-8 bytes of a character list, as Rust byte-index
slicing `&s[n..]` does; `none` when `n` is not a character boundary or is out
of range (where Rust panics). -/
def dropBytes : List Char → Nat → Option (List Char)
  | l, 0 => some l
  | [], _ + 1 => none
  | c :: rest, n + 1 =>
    if charUtf8Len c ≤ n + 1 then dropBytes rest (n + 1 - charUtf8Len c) else none

/-- `mask_secret` from `keyring_store.rs`:
`suffix_len = 4usize.min(secret.len())` and
`suffix = &secret[secret.len().saturating_sub(suffix_len)..]` operate on BYTE
indices; `none` models the panic when the slice start is not a character
boundary. -/
def mask_secret (secret : String) : Option String :=
  let suffix_len := min 4 (byteLen secret.data)
  (dropBytes secret.data (byteLen secret.data - suffix_len)).map
    (fun suffix => "***" ++ String.mk suffix)

/-- The last `n` elements of a list (spec-side helper for claims C5 and C9). -/
def takeLast (n : Nat) (l : List α) : List α := l.drop (l.length - n)

/- ### Session store model (`session_store.rs`)

The SQLite store is modelled as in-memory lists of rows; `rowid` order is list
order.  The `phase` column (TEXT in the schema) is stored already parsed as
`SessionPhase`; wall-clock times and generated uuids are passed in as
parameters. -/

structure SessionRow where
  id : String
  title : String
  app_name : String
  user_id : String
  phase : SessionPhase
  read_only : Bool
  created_at_ms : Int
  updated_at_ms : Int
deriving DecidableEq, Repr

structure MessageRow where
  id : String
  session_id : String
  role : String
  text : String
  status : String
  created_at_ms : Int
deriving DecidableEq, Repr

structure Store where
  sessions : List SessionRow
  messages : List MessageRow
deriving DecidableEq, Repr

structure SessionCreateInput where
  app_name : String
  user_id : String
  session_id : Option String
deriving DecidableEq, Repr

structure SessionMessageAppendInput where
  session_id : String
  role : String
  text : String
  status : String
  created_at_ms : Option Int
deriving DecidableEq, Repr

/-- `create_session` from `session_store.rs`.  `freshId` stands for the
generated `desktop-<uuid>` used when the input carries no id; `now` for
`now_ms()`.  `INSERT OR IGNORE` is a no-op when a row with the id exists;
the function then reloads the row by id (`get_session`). -/
def create_session (store : Store) (input : SessionCreateInput)
    (freshId : String) (now : Int) : Store × Except String SessionRow :=
  let id := input.session_id.getD freshId
  let store' :=
    if store.sessions.any (fun r => r.id == id) then store
    else
      { store with
        sessions := store.sessions ++
          [{ id := id, title := "", app_name := input.app_name,
             user_id := input.user_id, phase := SessionPhase.IdeaInput,
             read_only := false, created_at_ms := now, updated_at_ms := now }] }
  match store'.sessions.find? (fun r => r.id == id) with
  | some row => (store', Except.ok row)
  | none => (store', Except.error "Created session could not be loaded from local DB.")

/-- `infer_title_from_message` from `session_store.rs`. -/
def infer_title_from_message (role text : String) : Option String :=
  if normalize_text role ≠ "user" then none
  else
    let normalized := wsNormalize text
    if normalized = "" then none
    else if normalized.data.length ≤ 56 then some normalized
    else some (String.mk (normalized.data.take 56) ++ "...")

/-- SQLite `TRIM(x)` with no second argument removes only space (0x20)
characters from both ends. -/
def sqlTrim (s : String) : String :=
  ⟨((s.data.dropWhile (· == ' ')).reverse.dropWhile (· == ' ')).reverse⟩

/-- The per-row effect of the `UPDATE sessions SET title = CASE WHEN
TRIM(title) = \x27\x27 AND ?1 IS NOT NULL THEN ?1 ELSE title END,
updated_at_ms = ?2 WHERE id = ?3` statement in `message_append`. -/
def messageAppendRowUpdate (sessionId : String) (titleCandidate : Option String)
    (updateTime : Int) (r : SessionRow) : SessionRow :=
  if r.id == sessionId then
    { r with
      title :=
        match titleCandidate with
        | some t => if sqlTrim r.title = "" then t else r.title
        | none => r.title,
      updated_at_ms := updateTime }
  else r

/-- `message_append` from `session_store.rs`.  `msgId` stands for the
generated `msg-<uuid>`; `nowInsert` for the `now_ms()` default of
`created_at_ms`; `updateTime` for the second `now_ms()` used for
`updated_at_ms`. -/
def message_append (store : Store) (input : SessionMessageAppendInput)
    (msgId : String) (nowInsert updateTime : Int) :
    Except String (Store × MessageRow) :=
  if ¬ store.sessions.any (fun r => r.id == input.session_id) then
    Except.error ("Cannot append message: session '" ++ input.session_id ++
      "' does not exist in local DB.")
  else
    let message : MessageRow :=
      { id := msgId, session_id := input.session_id, role := input.role,
        text := input.text, status := input.status,
        created_at_ms := input.created_at_ms.getD nowInsert }
    let titleCandidate := infer_title_from_message message.role message.text
    Except.ok
      ({ sessions := store.sessions.map
           (messageAppendRowUpdate input.session_id titleCandidate updateTime),
         messages := store.messages ++ [message] }, message)

structure ReplayMessage where
  role : String
  text : String
deriving DecidableEq, Repr

/-- `replay_messages` from `session_store.rs`, applied to the message rows of
the session in `messages_get` order (created_at_ms asc, rowid asc). -/
def replay_messages (msgs : List MessageRow) (current_text : String)
    (max_messages : Nat) : List ReplayMessage :=
  let messages := msgs.filterMap (fun m =>
    if asciiLower (rustTrim m.status) ≠ "done" then none
    else
      let trimmed := rustTrim m.text
      if trimmed = "" then none
      else some { role := m.role, text := trimmed : ReplayMessage })
  let messages :=
    match messages.getLast? with
    | some last =>
      if normalize_text last.text = normalize_text current_text ∧
         normalize_text last.role = "user" then
        messages.dropLast
      else messages
    | none => messages
  if messages.length > max_messages then
    messages.drop (messages.length - max_messages)
  else messages

/- ### Spec-side formulations (refinement partners, phrased from the claims) -/

/-- Spec-side retention test of claim C5: status trimmed and lowercased equals
"done" and trimmed text is non-empty. -/
def replayKeep (m : MessageRow) : Bool :=
  asciiLower (rustTrim m.status) == "done" && rustTrim m.text != ""

/-- Spec-side statement of claim C5: filter, project to trimmed text, drop the
last entry when it is the user message about to be re-sent, keep the last
`max` entries. -/
def replayMessagesSpec (msgs : List MessageRow) (current_text : String)
    (maxMessages : Nat) : List ReplayMessage :=
  let kept := (msgs.filter replayKeep).map
    (fun m => { role := m.role, text := rustTrim m.text : ReplayMessage })
  let deduped :=
    match kept.getLast? with
    | some last =>
      if normalize_text last.text = normalize_text current_text ∧
         normalize_text last.role = "user" then
        kept.dropLast
      else kept
    | none => kept
  takeLast maxMessages deduped

/-- Spec-side title derivation of claim C6: the whitespace-normalized text
when at most 56 code points, otherwise its first 56 code points followed by
"...". -/
def derivedTitle (text : String) : String :=
  let n := wsNormalize text
  if n.data.length ≤ 56 then n else String.mk (n.data.take 56) ++ "..."

/- ### JSON model and the streaming bridge (`stream.rs`)

`serde_json::Value` is modelled by `J`; numbers are carried as `Int` (the code
never inspects them numerically).  All events on the per-request channel
`agent-stream:<request_id>` carry the same request id, so the id field common
to every payload is omitted from `Ev`.  Tauri `emit` failures (which abort the
task) are modelled as never occurring. -/

inductive J where
  | null
  | boolean (b : Bool)
  | num (n : Int)
  | str (s : String)
  | arr (items : List J)
  | obj (fields : List (String × J))

/-- `serde_json::Value::get` on a string index: field lookup on objects,
`None` on everything else. -/
def jGet : J → String → Option J
  | J.obj fields, key => (fields.find? (fun p => p.1 == key)).map (fun p => p.2)
  | _, _ => none

/-- `Value::as_str`. -/
def jAsStr : J → Option String
  | J.str s => some s
  | _ => none

/-- `Value::as_array`. -/
def jAsArr : J → Option (List J)
  | J.arr a => some a
  | _ => none

/-- Rust `.map(str::trim).filter(|s| !s.is_empty())`. -/
def trimNonEmpty : Option String → Option String
  | some s => let t := rustTrim s; if t = "" then none else some t
  | none => none

/-- The normalized frontend events of the streaming bridge. -/
inductive Ev where
  | streamOpen
  | meta (invocationId : String)
  | raw (event : J)
  | message (text : String) (source : Option String)
  | tool (phase : String) (name : String) (query : Option String)
      (detail : Option String)
  | progress (percent : Nat) (stage : String) (toolsCompleted toolsTotal : Nat)
  | error (message : String) (retryable : Bool)
  | done (usage : Option J)

structure ToolSignal where
  phase : String
  name : String
  query : Option String
  detail : Option String

/-- `StreamState` from `stream.rs` (`#[derive(Default)]`). -/
structure StreamState where
  last_model_text : String
  saw_model_text : Bool
  saw_error : Bool
  tools_started : Nat
  tools_completed : Nat
  last_progress_percent : Option Nat
  last_progress_stage : Option String
  last_invocation_id : Option String

/-- `StreamState::default()`. -/
def initState : StreamState :=
  { last_model_text := "", saw_model_text := false, saw_error := false,
    tools_started := 0, tools_completed := 0, last_progress_percent := none,
    last_progress_stage := none, last_invocation_id := none }

/-- `extract_event_source` from `stream.rs`. -/
def extract_event_source (event : J) : Option String :=
  trimNonEmpty ((jGet event "author" >>= jAsStr) <|> (jGet event "source" >>= jAsStr))

/-- `extract_invocation_id` from `stream.rs` (a metadata lookup on a
non-object yields `None`, as `Value::as_object + get` does). -/
def extract_invocation_id (event : J) : Option String :=
  trimNonEmpty
    ((jGet event "invocationId" >>= jAsStr) <|>
     (jGet event "invocation_id" >>= jAsStr) <|>
     ((jGet event "metadata").bind (fun m => jGet m "invocationId" >>= jAsStr)) <|>
     ((jGet event "metadata").bind (fun m => jGet m "invocation_id" >>= jAsStr)))

/-- `extract_run_events` from `stream.rs`. -/
def extract_run_events (payload : J) : Option (List J) :=
  match payload with
  | J.arr a => some a
  | J.obj _ =>
    (jGet payload "events" >>= jAsArr) <|> (jGet payload "response" >>= jAsArr) <|>
    (jGet payload "result" >>= jAsArr) <|> (jGet payload "items" >>= jAsArr)
  | _ => none

/-- `summarize_json_shape` from `stream.rs`. -/
def summarize_json_shape (value : J) : String :=
  match value with
  | J.arr arr => "array(len=" ++ toString arr.length ++ ")"
  | J.obj obj =>
    "object(keys=[" ++ joinSepStr ", " ((obj.map (fun p => p.1)).take 10) ++ "])"
  | J.str _ => "string"
  | J.num _ => "number"
  | J.boolean _ => "bool"
  | J.null => "null"

/-- `extract_model_text` from `stream.rs`. -/
def extract_model_text (event : J) : Option String :=
  match jGet event "content" with
  | none => none
  | some content =>
    let role := jGet content "role" >>= jAsStr
    let author := jGet event "author" >>= jAsStr
    let is_model :=
      (role == some "model" || role == some "assistant") ||
      (role == none && (author == some "model" || author == some "assistant"))
    if !is_model then none
    else
      match jGet content "parts" >>= jAsArr with
      | none => none
      | some parts =>
        let out := parts.foldl
          (fun acc part => acc ++ ((jGet part "text" >>= jAsStr).getD "")) ""
        if out = "" then none else some out

/-- `extract_error_message` from `stream.rs`. -/
def extract_error_message (event : J) : Option String :=
  match jGet event "error" >>= jAsStr with
  | some message => some message
  | none =>
    (jGet event "error").bind (fun e =>
      match e with
      | J.obj _ => jGet e "message" >>= jAsStr
      | _ => none)

/-- Rust `str::contains(substring)`. -/
def listContainsSub (needle : List Char) : List Char → Bool
  | [] => needle.isEmpty
  | c :: rest => needle.isPrefixOf (c :: rest) || listContainsSub needle rest

/-- `collect_queries` from `stream.rs`.  The Rust recursion carries `depth`
and returns at `depth > 5`; here `fuel = 6 - depth` decreases instead, so the
initial call uses fuel 6.  Rust key lowercasing is the Unicode
`str::to_lowercase`, modelled on the ASCII range. -/
def collect_queries : Nat → J → List String → List String
  | 0, _, out => out
  | fuel + 1, v, out =>
    if out.length ≥ 4 then out
    else
      match v with
      | J.obj fields =>
        fields.foldl (fun out kv =>
          let lower := asciiLower kv.1
          let looks_like_query := lower == "q" || lower == "query" ||
            lower == "queries" || listContainsSub "query".data lower.data
          if looks_like_query then
            match kv.2 with
            | J.str s => if rustTrim s ≠ "" then out ++ [rustTrim s] else out
            | J.arr items =>
              items.foldl (fun out item =>
                match item with
                | J.str s => if rustTrim s ≠ "" then out ++ [rustTrim s] else out
                | J.obj _ =>
                  match jGet item "q" >>= jAsStr with
                  | some q => if rustTrim q ≠ "" then out ++ [rustTrim q] else out
                  | none => out
                | _ => out) out
            | _ => out
          else collect_queries fuel kv.2 out) out
      | J.arr items => items.foldl (fun out item => collect_queries fuel item out) out
      | _ => out

/-- `truncate` from `stream.rs`. -/
def truncate (text : String) (max_chars : Nat) : String :=
  let out := rustTrim text
  if out.data.length ≤ max_chars then out
  else String.mk (out.data.take max_chars) ++ "..."

/-- `extract_search_query` from `stream.rs`. -/
def extract_search_query (args : J) : Option String :=
  let queries := collect_queries 6 args []
  if queries.isEmpty then none
  else some (truncate (joinSepStr " | " (queries.take 2)) 180)

/-- `summarize_args` from `stream.rs`. -/
def summarize_args (args : J) : Option String :=
  match extract_search_query args with
  | some query => some ("query: " ++ query)
  | none =>
    match args with
    | J.obj fields =>
      let keys := joinSepStr ", " ((fields.map (fun p => p.1)).take 4)
      if keys = "" then none else some ("args: " ++ keys)
    | _ => none

/-- `summarize_response_shape` from `stream.rs`. -/
def summarize_response_shape (response : J) : Option String :=
  match response with
  | J.arr a => some (toString a.length ++ " items returned")
  | J.obj o => some (toString o.length ++ " fields returned")
  | J.null => some "no payload"
  | _ => none

/-- `extract_tool_signals` from `stream.rs`: one start signal per
functionCall / function_call part and one done signal per functionResponse /
function_response part, in part order. -/
def extract_tool_signals (event : J) : List ToolSignal :=
  match (jGet event "content").bind (fun content => jGet content "parts") >>= jAsArr with
  | none => []
  | some parts =>
    parts.foldl (fun out part =>
      let out :=
        match (jGet part "functionCall") <|> (jGet part "function_call") with
        | some function_call =>
          let name := (jGet function_call "name" >>= jAsStr).getD "tool"
          let args := (jGet function_call "args") <|> (jGet function_call "arguments")
          let query := args.bind extract_search_query
          let detail := args.bind summarize_args
          out ++ [{ phase := "start", name := name, query := query,
                    detail := detail : ToolSignal }]
        | none => out
      match (jGet part "functionResponse") <|> (jGet part "function_response") with
      | some function_response =>
        let name := (jGet function_response "name" >>= jAsStr).getD "tool"
        let detail := (jGet function_response "response").bind summarize_response_shape
        out ++ [{ phase := "done", name := name, query := none,
                  detail := detail : ToolSignal }]
      | none => out) []

/-- `progress_snapshot` from `stream.rs`.  The f32 expression
`(25.0 + fraction * 55.0).round()` is modelled by exact rational
round-half-away-from-zero: `(51 * total + 110 * completed) / (2 * total)`
in natural division equals `floor(25 + 55 * completed / total + 1/2)`. -/
def progress_snapshot (state : StreamState) (isDone : Bool) : Nat × String :=
  if isDone then (100, "Complete")
  else if state.tools_started > 0 then
    let total := max (max state.tools_started state.tools_completed) 1
    let completed := min state.tools_completed total
    if completed < total then
      let percent := (51 * total + 110 * completed) / (2 * total)
      (min percent 88,
       "Running tools (" ++ toString completed ++ "/" ++ toString total ++ ")")
    else if state.saw_model_text then (92, "Synthesizing report")
    else (88, "Summarizing tool output")
  else if state.saw_model_text then (90, "Finalizing response")
  else (12, "Understanding request")

/-- `emit_progress_if_changed` from `stream.rs`: returns the emitted events
(empty or a single `stream_progress`) and the updated state. -/
def emit_progress_if_changed (state : StreamState) (isDone : Bool) :
    List Ev × StreamState :=
  let ps := progress_snapshot state isDone
  let changed :=
    state.last_progress_percent != some ps.1 ||
    (match state.last_progress_stage with
     | some s => s != ps.2
     | none => true)
  if !changed then ([], state)
  else
    ([Ev.progress ps.1 ps.2 state.tools_completed state.tools_started],
     { state with last_progress_percent := some ps.1,
                  last_progress_stage := some ps.2 })

/-- The invocation-id block of `process_event`: emit `stream_meta` once per
newly seen invocation id. -/
def pe_meta (event : J) (state : StreamState) : List Ev × StreamState :=
  match extract_invocation_id event with
  | some invocation_id =>
    if state.last_invocation_id != some invocation_id then
      ([Ev.meta invocation_id],
       { state with last_invocation_id := some invocation_id })
    else ([], state)
  | none => ([], state)

/-- The error block of `process_event`. -/
def pe_error (event : J) (state : StreamState) : List Ev × StreamState :=
  match extract_error_message event with
  | some message => ([Ev.error message true], { state with saw_error := true })
  | none => ([], state)

/-- The per-signal counter update of the tool block of `process_event`:
a start increments `tools_started`; a done increments `tools_completed` and
clamps `tools_started` up to it when exceeded. -/
def pe_toolStep (state : StreamState) (tool : ToolSignal) : StreamState :=
  if tool.phase == "start" then
    { state with tools_started := state.tools_started + 1 }
  else if tool.phase == "done" then
    let st := { state with tools_completed := state.tools_completed + 1 }
    if st.tools_completed > st.tools_started then
      { st with tools_started := st.tools_completed }
    else st
  else state

/-- The tool block of `process_event`: per detected signal, update the
counters and emit a `stream_tool`. -/
def pe_tools (event : J) (state : StreamState) : List Ev × StreamState :=
  (extract_tool_signals event).foldl
    (fun acc tool =>
      (acc.1 ++ [Ev.tool tool.phase tool.name tool.query tool.detail],
       pe_toolStep acc.2 tool))
    (([] : List Ev), state)

/-- The model-text block of `process_event`. -/
def pe_message (event : J) (state : StreamState) : List Ev × StreamState :=
  match extract_model_text event with
  | some full_text =>
    let normalized := rustTrim full_text
    if normalized ≠ "" ∧ normalized ≠ state.last_model_text then
      ([Ev.message normalized (extract_event_source event)],
       { state with saw_model_text := true, last_model_text := normalized })
    else ([], state)
  | none => ([], state)

/-- The usage block of `process_event`. -/
def pe_usage (event : J) (usage : Option J) : Option J :=
  match jGet event "usageMetadata" with
  | some u => some u
  | none => usage

/-- `process_event` from `stream.rs`: the events emitted for one upstream
event (meta, raw pass-through, error, tools, message, progress, in the order
of the Rust function body) and the updated state and captured usage. -/
def process_event (event : J) (state : StreamState) (usage : Option J) :
    List Ev × StreamState × Option J :=
  let m := pe_meta event state
  let e := pe_error event m.2
  let t := pe_tools event e.2
  let g := pe_message event t.2
  let p := emit_progress_if_changed g.2 false
  (m.1 ++ [Ev.raw event] ++ e.1 ++ t.1 ++ g.1 ++ p.1, p.2, pe_usage event usage)

/-- Sequential processing of a list of upstream events. -/
def process_events (events : List J) (state : StreamState) (usage : Option J) :
    List Ev × StreamState × Option J :=
  events.foldl (fun acc e =>
    let r := process_event e acc.2.1 acc.2.2
    (acc.1 ++ r.1, r.2.1, r.2.2)) (([] : List Ev), state, usage)

structure ConsumeResult where
  events : List Ev
  state : StreamState
  usage : Option J
  dataLines : List String
  done : Bool

/-- `consume_sse_event` from `stream.rs`: assemble the accumulated `data:`
lines into a frame payload, terminate on `[DONE]`, silently drop non-JSON
payloads, otherwise extract and process the events. -/
def consume_sse_event (parse : String → Option J) (state : StreamState)
    (usage : Option J) (dataLines : List String) : ConsumeResult :=
  if dataLines.isEmpty then
    { events := [], state := state, usage := usage, dataLines := dataLines,
      done := false }
  else
    let payload := joinSepStr "\x0a" dataLines
    let trimmed := rustTrim payload
    if trimmed = "" then
      { events := [], state := state, usage := usage, dataLines := [],
        done := false }
    else if trimmed = "[DONE]" then
      { events := [], state := state, usage := usage, dataLines := [],
        done := true }
    else
      match parse trimmed with
      | none =>
        { events := [], state := state, usage := usage, dataLines := [],
          done := false }
      | some parsed =>
        let events := (extract_run_events parsed).getD [parsed]
        let r := process_events events state usage
        { events := r.1, state := r.2.1, usage := r.2.2, dataLines := [],
          done := false }

/-- One observation of the SSE byte stream: the select between the
cancellation token and `stream.next()` yields cancellation, a chunk of bytes
(`from_utf8_lossy` is identity on the valid UTF-8 text modelled here), or a
read error; end-of-stream is the end of the list. -/
inductive ReadStep where
  | cancelled
  | chunk (data : String)
  | failed (msg : String)

structure LoopSt where
  state : StreamState
  usage : Option J
  lineBuffer : List Char
  dataLines : List String
  doneFlag : Bool

/-- Split off the complete (newline-terminated) lines, keeping the
unterminated remainder, exactly as the repeated `line_buffer.find('\x0a')`
loop does. -/
def takeLinesAux (cur : List Char) : List Char → List (List Char) × List Char
  | [] => ([], cur.reverse)
  | c :: rest =>
    if c = '\x0a' then
      let r := takeLinesAux [] rest
      (cur.reverse :: r.1, r.2)
    else takeLinesAux (c :: cur) rest

/-- `line.strip_prefix("data:")`. -/
def dropDataTag (line : List Char) : Option (List Char) :=
  if "data:".data.isPrefixOf line then some (line.drop 5) else none

/-- Processing of one complete line inside the read loop: strip a trailing
CR; an empty line closes the frame (`consume_sse_event`); a `data:` line is
accumulated after `trim_start`. -/
def process_line (parse : String → Option J) (ls : LoopSt) (line : List Char) :
    List Ev × LoopSt :=
  let line := if line.getLast? == some '\x0d' then line.dropLast else line
  if line.isEmpty then
    let r := consume_sse_event parse ls.state ls.usage ls.dataLines
    (r.events, { ls with state := r.state, usage := r.usage,
                         dataLines := r.dataLines, doneFlag := r.done })
  else
    match dropDataTag line with
    | some data =>
      ([], { ls with dataLines := ls.dataLines ++ [String.mk (trimStartList data)] })
    | none => ([], ls)

/-- Processing of one received chunk: append to the line buffer and process
every complete line. -/
def process_chunk (parse : String → Option J) (ls : LoopSt) (data : String) :
    List Ev × LoopSt :=
  let r := takeLinesAux [] (ls.lineBuffer ++ data.data)
  r.1.foldl (fun acc line =>
    let pr := process_line parse acc.2 line
    (acc.1 ++ pr.1, pr.2))
    (([] : List Ev), { ls with lineBuffer := r.2 })

inductive LoopExit where
  | ended
  | gotDone
  | cancelled
  | readErr (msg : String)
deriving DecidableEq, Repr

/-- The `while !done` read loop of `run_sse_stream`: exits when `done` was
set by a `[DONE]` frame, on end of stream, on cancellation, or on a read
error (which in Rust returns `Err` immediately). -/
def sse_loop (parse : String → Option J) :
    List ReadStep → LoopSt → List Ev × LoopSt × LoopExit
  | [], ls =>
    if ls.doneFlag then ([], ls, LoopExit.gotDone)
    else ([], ls, LoopExit.ended)
  | step :: rest, ls =>
    if ls.doneFlag then ([], ls, LoopExit.gotDone)
    else
      match step with
      | ReadStep.cancelled => ([], ls, LoopExit.cancelled)
      | ReadStep.failed msg => ([], ls, LoopExit.readErr msg)
      | ReadStep.chunk data =>
        let pr := process_chunk parse ls data
        let r := sse_loop parse rest pr.2
        (pr.1 ++ r.1, r.2.1, r.2.2)

/-- The flush after the read loop (`if !done { ... }` in `run_sse_stream`):
push any residual buffered line, then close the pending frame once. -/
def flush_residual (parse : String → Option J) (ls : LoopSt) :
    List Ev × LoopSt :=
  let ls :=
    if ¬ (rustTrimList ls.lineBuffer).isEmpty then
      match dropDataTag (rustTrimList ls.lineBuffer) with
      | some data =>
        { ls with dataLines := ls.dataLines ++ [String.mk (trimStartList data)] }
      | none => ls
    else ls
  let r := consume_sse_event parse ls.state ls.usage ls.dataLines
  (r.events, { ls with state := r.state, usage := r.usage,
                       dataLines := r.dataLines, doneFlag := r.done })

structure SseFailure where
  status : Option Nat
  message : String

inductive StreamOutcome where
  | Completed
  | Failed
deriving DecidableEq, Repr

/-- The outcome of `send_run_sse_request` plus the subsequent byte stream:
either the request itself failed (reqwest error, status `None`), or a
response arrived with an HTTP status, a body (read only on non-2xx), and the
stream observations. -/
inductive SseResponse where
  | connectErr (msg : String)
  | resp (status : Nat) (body : String) (steps : List ReadStep)

/-- `StatusCode::is_success()`. -/
def is2xx (status : Nat) : Bool := 200 ≤ status && status < 300

/-- Canonical reason phrases for the status codes relevant here, as printed
by the `Display` of `http::StatusCode` (`format!` on a status renders
"<code> <canonical reason>"). -/
def statusCanonicalReason (status : Nat) : Option String :=
  if status = 200 then some "OK"
  else if status = 400 then some "Bad Request"
  else if status = 404 then some "Not Found"
  else if status = 405 then some "Method Not Allowed"
  else if status = 500 then some "Internal Server Error"
  else if status = 501 then some "Not Implemented"
  else if status = 503 then some "Service Unavailable"
  else none

def statusDisplay (status : Nat) : String :=
  toString status ++ " " ++ (statusCanonicalReason status).getD "<unknown status code>"

/-- The initial loop state of `run_sse_stream` after the first
`emit_progress_if_changed`. -/
def initialLoopSt : LoopSt :=
  { state := (emit_progress_if_changed initState false).2, usage := none,
    lineBuffer := [], dataLines := [], doneFlag := false }

/-- `run_sse_stream` from `stream.rs` as a function from the SSE response to
the events emitted on the channel and the result. -/
def run_sse_stream (parse : String → Option J) (resp : SseResponse) :
    List Ev × Except SseFailure StreamOutcome :=
  match resp with
  | SseResponse.connectErr msg =>
    ([], Except.error
      { status := none, message := "error sending request to /run_sse: " ++ msg })
  | SseResponse.resp status body steps =>
    if ¬ is2xx status then
      ([], Except.error
        { status := some status,
          message := "/run_sse returned " ++ statusDisplay status ++
            (if rustTrim body = "" then ""
             else " | backend: " ++ truncate (rustTrim body) 800) })
    else
      let initR := emit_progress_if_changed initState false
      let lr := sse_loop parse steps initialLoopSt
      match lr.2.2 with
      | LoopExit.readErr msg =>
        (initR.1 ++ lr.1, Except.error
          { status := none, message := "error reading SSE stream: " ++ msg })
      | LoopExit.gotDone =>
        let ls := lr.2.1
        let pr := emit_progress_if_changed ls.state true
        (initR.1 ++ lr.1 ++ [Ev.done ls.usage] ++ pr.1,
         Except.ok (if ls.state.saw_error then StreamOutcome.Failed
                    else StreamOutcome.Completed))
      | LoopExit.ended =>
        let fr := flush_residual parse lr.2.1
        let ls := fr.2
        let pr := emit_progress_if_changed ls.state true
        (initR.1 ++ lr.1 ++ fr.1 ++ [Ev.done ls.usage] ++ pr.1,
         Except.ok (if ls.state.saw_error then StreamOutcome.Failed
                    else StreamOutcome.Completed))
      | LoopExit.cancelled =>
        let fr := flush_residual parse lr.2.1
        let ls := fr.2
        let pr := emit_progress_if_changed ls.state true
        (initR.1 ++ lr.1 ++ fr.1 ++
           [Ev.error "Run cancelled." false, Ev.done ls.usage] ++ pr.1,
         Except.ok StreamOutcome.Failed)

/-- `run_non_streaming_fallback` from `stream.rs`.  `runResp` is the outcome
of `send_run_request`: an error (request failure, which makes the task
return `Err`) or the HTTP status with the body text.  Serde error strings in
the `Err` messages are abbreviated. -/
def run_non_streaming_fallback (parse : String → Option J)
    (runResp : Except String (Nat × String)) (sse_status : Option Nat) :
    List Ev × Except String StreamOutcome :=
  match runResp with
  | Except.error e => ([], Except.error e)
  | Except.ok (status, response_text) =>
    if ¬ is2xx status then
      let body_excerpt := truncate (rustTrim response_text) 800
      ([Ev.error
          ("Streaming failed" ++
           (match sse_status with
            | some s => " with HTTP " ++ toString s
            | none => "") ++
           " and fallback /run returned " ++ statusDisplay status ++
           (if body_excerpt = "" then "" else " | backend: " ++ body_excerpt))
          true,
        Ev.done none],
       Except.ok StreamOutcome.Failed)
    else
      match parse response_text with
      | none =>
        ([], Except.error
          ("Failed to parse fallback /run response. Body: " ++
           truncate response_text 500))
      | some payload =>
        match extract_run_events payload with
        | none =>
          ([], Except.error
            ("Unexpected /run response shape: " ++ summarize_json_shape payload))
        | some events =>
          let initR := emit_progress_if_changed initState false
          let r := process_events events initR.2 none
          let pr := emit_progress_if_changed r.2.1 true
          (initR.1 ++ r.1 ++ [Ev.done r.2.2] ++ pr.1,
           Except.ok (if r.2.1.saw_error then StreamOutcome.Failed
                      else StreamOutcome.Completed))

/-- The external interactions of one whole `run_stream_task` run:
the result of `ensure_adk_session`, the replay window and the outcome of
`replay_history` (its HTTP calls and cancellation check), the `/run_sse`
response, and the fallback `/run` response. -/
structure World where
  ensureResult : Except String Unit
  replay : List ReplayMessage
  replayResult : Except String Unit
  sse : SseResponse
  runResp : Except String (Nat × String)

/-- `run_stream_task` from `stream.rs`: the full list of events emitted on
`agent-stream:<request_id>` and the task result (`Err` = task abort before a
terminal event, the orphaned case). -/
def run_stream_task (parse : String → Option J) (w : World) :
    List Ev × Except String StreamOutcome :=
  match w.ensureResult with
  | Except.error e => ([], Except.error e)
  | Except.ok _ =>
    let openEvs : List Ev := [Ev.streamOpen, Ev.progress 5 "Rehydrating context" 0 0]
    let replayEvs : List Ev :=
      if w.replay.isEmpty then []
      else
        match w.replayResult with
        | Except.error err =>
          [Ev.tool "info" "context_replay" none
            (some ("Replay degraded: " ++ truncate err 240))]
        | Except.ok _ => []
    let sr := run_sse_stream parse w.sse
    match sr.2 with
    | Except.ok outcome => (openEvs ++ replayEvs ++ sr.1, Except.ok outcome)
    | Except.error failure =>
      let fallback_allowed := failure.status == some 404 ||
        failure.status == some 405 || failure.status == some 501
      if fallback_allowed then
        let fr := run_non_streaming_fallback parse w.runResp failure.status
        (openEvs ++ replayEvs ++ sr.1 ++ fr.1, fr.2)
      else
        (openEvs ++ replayEvs ++ sr.1 ++
           [Ev.error ("SSE stream failed: " ++ failure.message) true,
            Ev.done none],
         Except.ok StreamOutcome.Failed)

/-- The percent fields of the emitted `stream_progress` events, in emission
order. -/
def progressPercents (evs : List Ev) : List Nat :=
  evs.filterMap (fun e =>
    match e with
    | Ev.progress p _ _ _ => some p
    | _ => none)

/-- The event list ends with a `stream_done`. -/
def endsWithDone (evs : List Ev) : Prop :=
  ∃ pre u, evs = pre ++ [Ev.done u]

/-- The event list ends with a `stream_done` immediately followed by one
final `stream_progress(100, "Complete")`. -/
def endsWithDoneProg (evs : List Ev) : Prop :=
  ∃ pre u c t, evs = pre ++ [Ev.done u, Ev.progress 100 "Complete" c t]

/-- The per-state progress invariant: any recorded last progress percent was
produced with `done = false` and is at most 92. -/
def progOK (state : StreamState) : Prop :=
  ∀ p, state.last_progress_percent = some p → p ≤ 92
/- ### Concrete instances used by claims C5, C6, C8, C9 -/

/-- A user message "message-i" with status done, as built by the replay-window
seed test. -/
def mkUserMsg (i : Nat) : MessageRow :=
  { id := "m" ++ toString i, session_id := "s1", role := "user",
    text := "message-" ++ toString i, status := "done",
    created_at_ms := (i : Int) }

/-- 25 user messages "message-0" .. "message-24" in creation order. -/
def msgs25 : List MessageRow := (List.range 25).map mkUserMsg

/-- The 20 messages "message-4" .. "message-23" expected from the replay
window. -/
def expected20 : List ReplayMessage :=
  (List.range 20).map (fun i =>
    { role := "user", text := "message-" ++ toString (i + 4) : ReplayMessage })

/-- A 200-code-point message whose whitespace-normalized form is "a": the
character a followed by 199 spaces. -/
def c6Text : String := String.mk ('a' :: List.replicate 199 ' ')

/-- A store holding one session with an empty title. -/
def c6Store : Store :=
  { sessions := [{ id := "s1", title := "", app_name := "app", user_id := "u1",
                   phase := SessionPhase.IdeaInput, read_only := false,
                   created_at_ms := 0, updated_at_ms := 0 }],
    messages := [] }

/-- Appending `c6Text` as a user message. -/
def c6Input : SessionMessageAppendInput :=
  { session_id := "s1", role := "user", text := c6Text, status := "done",
    created_at_ms := some 10 }

/-- A pre-existing session row used by the idempotent-create claim. -/
def c8Row : SessionRow :=
  { id := "s1", title := "Existing title", app_name := "appA", user_id := "userA",
    phase := SessionPhase.AwaitingApproval, read_only := false,
    created_at_ms := 1, updated_at_ms := 2 }

/-- A store already holding `c8Row`. -/
def c8Store : Store := { sessions := [c8Row], messages := [] }

/-- A create request reusing the existing id but with different app and
user. -/
def c8Input : SessionCreateInput :=
  { app_name := "appB", user_id := "userB", session_id := some "s1" }

/-- Appending "hello" as a first user message (title-inference witness). -/
def c6HelloInput : SessionMessageAppendInput :=
  { session_id := "s1", role := "user", text := "hello", status := "done",
    created_at_ms := some 11 }

/-- The message row produced by appending "hello". -/
def c6HelloMsg : MessageRow :=
  { id := "m2", session_id := "s1", role := "user", text := "hello",
    status := "done", created_at_ms := 11 }

/-- The store after appending "hello" to `c6Store`. -/
def c6HelloAfter : Store :=
  { sessions := [{ id := "s1", title := "hello", app_name := "app",
                   user_id := "u1", phase := SessionPhase.IdeaInput,
                   read_only := false, created_at_ms := 0, updated_at_ms := 7 }],
    messages := [c6HelloMsg] }

/-- The tool-counter invariant of claim C10. -/
def toolsInv (state : StreamState) : Prop :=
  state.tools_completed ≤ state.tools_started

/- ### Concrete streaming runs -/

/-- A parse oracle for runs whose frame payloads are never parsed. -/
def parse0 : String → Option J := fun _ => none

/-- A happy run: `/run_sse` answers 200 and the stream consists of the single
frame `data: [DONE]`. -/
def wDone : World :=
  { ensureResult := Except.ok (), replay := [], replayResult := Except.ok (),
    sse := SseResponse.resp 200 "" [ReadStep.chunk "data: [DONE]\x0a\x0a"],
    runResp := Except.error "unused" }

/-- The events emitted by the `wDone` run. -/
def wDoneEvents : List Ev :=
  [Ev.streamOpen, Ev.progress 5 "Rehydrating context" 0 0,
   Ev.progress 12 "Understanding request" 0 0, Ev.done none,
   Ev.progress 100 "Complete" 0 0]

/-- First frame payload of the progress counterexample: a model-text event. -/
def c2Payload1 : String :=
  "\x7b\"content\":\x7b\"role\":\"model\",\"parts\":[\x7b\"text\":\"hi\"\x7d]\x7d\x7d"

/-- The serde parse of `c2Payload1`. -/
def c2Event1 : J :=
  J.obj [("content", J.obj
    [("role", J.str "model"),
     ("parts", J.arr [J.obj [("text", J.str "hi")]])])]

/-- Second frame payload: a functionCall part arriving after model text. -/
def c2Payload2 : String :=
  "\x7b\"content\":\x7b\"parts\":[\x7b\"functionCall\":\x7b\"name\":\"search\",\"args\":\x7b\"query\":\"x\"\x7d\x7d\x7d]\x7d\x7d"

/-- The serde parse of `c2Payload2`. -/
def c2Event2 : J :=
  J.obj [("content", J.obj
    [("parts", J.arr [J.obj
      [("functionCall", J.obj
        [("name", J.str "search"),
         ("args", J.obj [("query", J.str "x")])])]])])]

/-- Parse oracle behaving as `serde_json::from_str` on the two payloads. -/
def c2Parse : String → Option J := fun s =>
  if s == c2Payload1 then some c2Event1
  else if s == c2Payload2 then some c2Event2
  else none

/-- A successful run in which model text arrives before the first tool call. -/
def wTools : World :=
  { ensureResult := Except.ok (), replay := [], replayResult := Except.ok (),
    sse := SseResponse.resp 200 ""
      [ReadStep.chunk ("data: " ++ c2Payload1 ++ "\x0a\x0a"),
       ReadStep.chunk ("data: " ++ c2Payload2 ++ "\x0a\x0a"),
       ReadStep.chunk "data: [DONE]\x0a\x0a"],
    runResp := Except.error "unused" }

/-- A run whose cancellation token fires at the first read. -/
def wCancel : World :=
  { ensureResult := Except.ok (), replay := [], replayResult := Except.ok (),
    sse := SseResponse.resp 200 "" [ReadStep.cancelled],
    runResp := Except.error "unused" }

/- ### Claim C3 -/

/-- Claim C3: `is_run_mode_allowed(phase, run_mode)` is true exactly for the
pairs (idea_input, idea), (awaiting_approval, edit_plan),
(awaiting_approval, approve), and false for every other combination. -/
theorem c3_run_mode_matrix :
    ∀ (phase : SessionPhase) (mode : RunMode),
      is_run_mode_allowed phase mode = true ↔
        ((phase = SessionPhase.IdeaInput ∧ mode = RunMode.Idea) ∨
         (phase = SessionPhase.AwaitingApproval ∧ mode = RunMode.EditPlan) ∨
         (phase = SessionPhase.AwaitingApproval ∧ mode = RunMode.Approve)) := by
  intro phase mode
  cases phase <;> cases mode <;> simp [is_run_mode_allowed]

/- ### Claim C4 -/

/-- Claim C4: `phase_after_run` maps (idea, true) and (edit_plan, true) to
(awaiting_approval, read_only=false), (approve, true) to
(completed, read_only=true), and any run mode with success=false to
(failed, read_only=true). -/
theorem c4_phase_transition :
    (phase_after_run RunMode.Idea true = (SessionPhase.AwaitingApproval, false)) ∧
    (phase_after_run RunMode.EditPlan true = (SessionPhase.AwaitingApproval, false)) ∧
    (phase_after_run RunMode.Approve true = (SessionPhase.Completed, true)) ∧
    (∀ m : RunMode, phase_after_run m false = (SessionPhase.Failed, true)) := by
  refine ⟨rfl, rfl, rfl, ?_⟩
  intro m
  cases m <;> rfl

/- ### Auxiliary lemmas -/

theorem aux_dropWhile_head {p : Char → Bool} :
    ∀ (l : List Char) (c : Char) (rest : List Char),
      l.dropWhile p = c :: rest → p c = false := by
  intro l
  induction l with
  | nil => intro c rest h; simp [List.dropWhile] at h
  | cons a l ih =>
    intro c rest h
    by_cases ha : p a
    · rw [List.dropWhile_cons_of_pos ha] at h
      exact ih c rest h
    · rw [List.dropWhile_cons_of_neg ha] at h
      obtain ⟨rfl, _⟩ := List.cons.inj h
      exact Bool.eq_false_iff.mpr ha

theorem aux_splitWS_ne_nil_of_cur {cur : List Char} (hcur : cur ≠ []) :
    ∀ l : List Char, splitWSAux cur l ≠ [] := by
  intro l
  induction l generalizing cur with
  | nil =>
    simp only [splitWSAux]
    rw [if_neg (by simpa [List.isEmpty_iff] using hcur)]
    simp
  | cons c l ih =>
    simp only [splitWSAux]
    by_cases hc : rustIsWS c
    · rw [if_pos hc, if_neg (by simpa [List.isEmpty_iff] using hcur)]
      simp
    · rw [if_neg hc]
      exact ih (by simp)

theorem aux_splitWS_ne_nil :
    ∀ l : List Char, (∃ c ∈ l, rustIsWS c = false) → splitWSAux [] l ≠ [] := by
  intro l
  induction l with
  | nil => rintro ⟨c, hc, _⟩; exact absurd hc (List.not_mem_nil c)
  | cons c l ih =>
    rintro ⟨d, hd, hdws⟩
    simp only [splitWSAux]
    by_cases hc : rustIsWS c
    · rw [if_pos hc, if_pos (by simp [List.isEmpty])]
      rcases List.mem_cons.mp hd with rfl | hdl
      · rw [hc] at hdws; cases hdws
      · exact ih ⟨d, hdl, hdws⟩
    · rw [if_neg hc]
      exact aux_splitWS_ne_nil_of_cur (by simp) l

theorem aux_splitWS_words_ne_nil :
    ∀ (l : List Char) (cur : List Char) (w : List Char),
      w ∈ splitWSAux cur l → w ≠ [] := by
  intro l
  induction l with
  | nil =>
    intro cur w hw
    simp only [splitWSAux] at hw
    by_cases hcur : cur.isEmpty
    · rw [if_pos hcur] at hw; exact absurd hw (List.not_mem_nil w)
    · rw [if_neg hcur] at hw
      simp only [List.mem_singleton] at hw
      subst hw
      simpa [List.isEmpty_iff] using hcur
  | cons c l ih =>
    intro cur w hw
    simp only [splitWSAux] at hw
    by_cases hc : rustIsWS c
    · rw [if_pos hc] at hw
      by_cases hcur : cur.isEmpty
      · rw [if_pos hcur] at hw; exact ih [] w hw
      · rw [if_neg hcur] at hw
        rcases List.mem_cons.mp hw with rfl | hw'
        · simpa [List.isEmpty_iff] using hcur
        · exact ih [] w hw'
    · rw [if_neg hc] at hw
      exact ih (c :: cur) w hw

theorem aux_join_ne_nil (sep : List Char) :
    ∀ ws : List (List Char), (∀ w ∈ ws, w ≠ []) → ws ≠ [] →
      joinSepL sep ws ≠ [] := by
  intro ws hws hne
  match ws with
  | [] => exact absurd rfl hne
  | [w] => simpa [joinSepL] using hws w (by simp)
  | w :: x :: xs =>
    have hw : w ≠ [] := hws w (by simp)
    simp [joinSepL, List.append_eq_nil, hw]

theorem aux_mk_ne_empty {l : List Char} (h : l ≠ []) : String.mk l ≠ "" := by
  intro hcontra
  apply h
  have : (String.mk l).data = ("" : String).data := by rw [hcontra]
  simpa using this

theorem aux_rustTrim_has_nonws {l : List Char} (h : rustTrimList l ≠ []) :
    ∃ c ∈ rustTrimList l, rustIsWS c = false := by
  unfold rustTrimList at *
  rcases hb : (l.dropWhile rustIsWS).reverse.dropWhile rustIsWS with _ | ⟨c, rest⟩
  · rw [hb] at h; simp at h
  · refine ⟨c, ?_, aux_dropWhile_head _ c rest hb⟩
    simp

theorem aux_wsNormalize_ne_empty {text : String} (h : rustTrim text ≠ "") :
    wsNormalize text ≠ "" := by
  have hl : rustTrimList text.data ≠ [] := by
    intro hc
    apply h
    unfold rustTrim
    rw [hc]
  obtain ⟨c, hc, hcws⟩ := aux_rustTrim_has_nonws hl
  have hsplit : splitWSAux [] (rustTrimList text.data) ≠ [] :=
    aux_splitWS_ne_nil _ ⟨c, hc, hcws⟩
  unfold wsNormalize
  apply aux_mk_ne_empty
  apply aux_join_ne_nil
  · intro w hw
    exact aux_splitWS_words_ne_nil _ _ w hw
  · exact hsplit

/- ### Claim C5 -/

/-- Claim C5: `replay_messages` keeps exactly the messages whose status,
trimmed and ASCII-lowercased, is "done" and whose trimmed text is non-empty,
drops the last entry when its role normalizes to "user" and its normalized
text equals the normalized current text, and truncates to the last `max`
entries; in particular on 25 user messages "message-0".."message-24" with
current text "message-24" and max 20 it returns "message-4".."message-23". -/
theorem c5_replay_messages :
    (∀ (msgs : List MessageRow) (current_text : String) (maxMessages : Nat),
      replay_messages msgs current_text maxMessages =
        replayMessagesSpec msgs current_text maxMessages) ∧
    replay_messages msgs25 "message-24" 20 = expected20 := by
  constructor
  · intro msgs current_text maxMessages
    have hfun : (fun (m : MessageRow) =>
          if asciiLower (rustTrim m.status) ≠ "done" then none
          else
            let trimmed := rustTrim m.text
            if trimmed = "" then none
            else some { role := m.role, text := trimmed : ReplayMessage }) =
        (fun m =>
          if replayKeep m then
            some { role := m.role, text := rustTrim m.text : ReplayMessage }
          else none) := by
      funext m
      by_cases h1 : asciiLower (rustTrim m.status) = "done" <;>
        by_cases h2 : rustTrim m.text = "" <;>
          simp [replayKeep, h1, h2]
    have hfm : ∀ ms : List MessageRow,
        ms.filterMap (fun m =>
          if replayKeep m then
            some { role := m.role, text := rustTrim m.text : ReplayMessage }
          else none) =
        (ms.filter replayKeep).map
          (fun m => { role := m.role, text := rustTrim m.text : ReplayMessage }) := by
      intro ms
      induction ms with
      | nil => rfl
      | cons m ms ih =>
        by_cases h : replayKeep m
        · simp [List.filterMap_cons, List.filter_cons, h, ih]
        · simp [List.filterMap_cons, List.filter_cons, h, ih]
    have htake : ∀ (l : List ReplayMessage) (n : Nat),
        (if l.length > n then l.drop (l.length - n) else l) = takeLast n l := by
      intro l n
      unfold takeLast
      by_cases hlen : l.length > n
      · rw [if_pos hlen]
      · rw [if_neg hlen, Nat.sub_eq_zero_of_le (Nat.le_of_not_lt hlen), List.drop_zero]
    unfold replay_messages replayMessagesSpec
    rw [hfun, hfm]
    set kept := (msgs.filter replayKeep).map
      (fun m => { role := m.role, text := rustTrim m.text : ReplayMessage }) with hkept
    rcases hlast : kept.getLast? with _ | last
    · simp only [hlast]
      exact htake kept maxMessages
    · simp only [hlast]
      by_cases hdup : normalize_text last.text = normalize_text current_text ∧
          normalize_text last.role = "user"
      · rw [if_pos hdup]
        exact htake kept.dropLast maxMessages
      · rw [if_neg hdup]
        exact htake kept maxMessages
  · decide

/- ### Claim C9 -/

theorem aux_byteLen_ascii :
    ∀ l : List Char, (∀ c ∈ l, c.toNat < 128) → byteLen l = l.length := by
  intro l
  induction l with
  | nil => intro _; rfl
  | cons c l ih =>
    intro h
    have hc : c.toNat < 128 := h c (by simp)
    have hl : ∀ d ∈ l, d.toNat < 128 := fun d hd => h d (by simp [hd])
    unfold byteLen at *
    simp only [List.map_cons, List.sum_cons, ih hl]
    unfold charUtf8Len
    rw [if_pos hc]
    simp [List.length_cons, Nat.add_comm]

theorem aux_dropBytes_ascii :
    ∀ (l : List Char) (n : Nat), (∀ c ∈ l, c.toNat < 128) → n ≤ l.length →
      dropBytes l n = some (l.drop n) := by
  intro l
  induction l with
  | nil =>
    intro n _ hn
    have hn0 : n = 0 := by simpa using hn
    subst hn0
    rfl
  | cons c l ih =>
    intro n h hn
    match n with
    | 0 => rfl
    | n + 1 =>
      have hc : charUtf8Len c = 1 := by
        unfold charUtf8Len
        rw [if_pos (h c (by simp))]
      unfold dropBytes
      rw [hc]
      rw [if_pos (by omega)]
      simp only [Nat.add_sub_cancel, List.drop_succ_cons]
      exact ih n (fun d hd => h d (by simp [hd])) (by simpa using hn)

/-- Claim C9 (amended): `mask_secret` keeps the last `min(4, byte-length)`
BYTES of the secret.  For secrets made of single-byte (ASCII) characters this
equals "***" followed by the last `min(4, length)` characters — in particular
`mask_secret "abcdef1234" = "***1234"` and `mask_secret "abc" = "***abc"` —
but on multi-byte secrets the byte slice can split a character, where the
code panics. -/
theorem c9_mask_secret_amended :
    (∀ s : String, (∀ c ∈ s.data, c.toNat < 128) →
      mask_secret s =
        some ("***" ++ String.mk (takeLast (min 4 s.data.length) s.data))) ∧
    mask_secret "abcdef1234" = some "***1234" ∧
    mask_secret "abc" = some "***abc" := by
  refine ⟨?_, by decide, by decide⟩
  intro s h
  unfold mask_secret
  simp only [aux_byteLen_ascii s.data h]
  rw [aux_dropBytes_ascii s.data (s.data.length - min 4 s.data.length) h
    (Nat.sub_le _ _)]
  rfl

/-- Claim C9, counterexample to the claim as stated: on the four-character
secret "éabc" the code does not return "***" plus the last four characters;
the byte slice starts inside the two-byte character é, which in Rust panics
(modelled by `none`). -/
theorem c9_mask_secret_counterexample :
    mask_secret "éabc" ≠
      some ("***" ++ String.mk
        (takeLast (min 4 ("éabc" : String).data.length) ("éabc" : String).data)) ∧
    mask_secret "éabc" = none := by
  exact ⟨by decide, by decide⟩

/-- Claim C9, witness: the amended theorem applied at "abc". -/
theorem c9_mask_secret_witness :
    (∀ c ∈ ("abc" : String).data, c.toNat < 128) ∧
    mask_secret "abc" =
      some ("***" ++ String.mk
        (takeLast (min 4 ("abc" : String).data.length) ("abc" : String).data)) :=
  ⟨by decide, c9_mask_secret_amended.1 "abc" (by decide)⟩

/- ### Claim C8 -/

/-- Claim C8: `create_session` with an id already present in the store leaves
the store entirely unchanged — every stored attribute keeps its prior value,
whatever app_name and user_id the input carries — and returns the
pre-existing row. -/
theorem c8_idempotent_create :
    ∀ (store : Store) (input : SessionCreateInput) (freshId : String)
      (now : Int) (sid : String) (row : SessionRow),
      input.session_id = some sid →
      store.sessions.find? (fun r => r.id == sid) = some row →
      create_session store input freshId now = (store, Except.ok row) := by
  intro store input freshId now sid row hid hfind
  have hmem : row ∈ store.sessions := List.mem_of_find?_eq_some hfind
  have hpred := List.find?_some hfind
  have hany : store.sessions.any (fun r => r.id == sid) = true :=
    List.any_eq_true.mpr ⟨row, hmem, hpred⟩
  unfold create_session
  rw [hid]
  simp only [Option.getD_some]
  rw [if_pos hany, hfind]

/-- Claim C8, witness: re-creating the existing session "s1" with different
app and user leaves the store unchanged and returns the stored row. -/
theorem c8_idempotent_create_witness :
    (c8Input.session_id = some "s1") ∧
    (c8Store.sessions.find? (fun r => r.id == "s1") = some c8Row) ∧
    create_session c8Store c8Input "desktop-fresh" 99 =
      (c8Store, Except.ok c8Row) :=
  ⟨by decide, by decide,
   c8_idempotent_create c8Store c8Input "desktop-fresh" 99 "s1" c8Row
     (by decide) (by decide)⟩

/- ### Claim C6 -/

theorem aux_infer_title_user {role text : String}
    (hrole : normalize_text role = "user") (htext : rustTrim text ≠ "") :
    infer_title_from_message role text = some (derivedTitle text) := by
  unfold infer_title_from_message derivedTitle
  rw [if_neg (by simp [hrole])]
  rw [if_neg (aux_wsNormalize_ne_empty htext)]
  by_cases hlen : (wsNormalize text).data.length ≤ 56
  · rw [if_pos hlen, if_pos hlen]
  · rw [if_neg hlen, if_neg hlen]

theorem aux_infer_title_nonuser {role text : String}
    (hrole : normalize_text role ≠ "user") :
    infer_title_from_message role text = none := by
  unfold infer_title_from_message
  rw [if_pos hrole]

/-- Claim C6 (amended): appending a message to a session whose stored title is
empty sets the title to the whitespace-normalized text when that is at most 56
code points and otherwise to its first 56 code points followed by "...",
provided the appended role normalizes to "user" and the trimmed text is
non-empty; messages whose role does not normalize to "user" never change any
title.  A 200-character message yields a title of exactly 59 code points only
when its whitespace-normalized text exceeds 56 code points (for example 200
copies of the letter x). -/
theorem c6_title_inference_amended :
    (∀ (store : Store) (input : SessionMessageAppendInput) (msgId : String)
        (nowInsert updateTime : Int) (store' : Store) (m : MessageRow),
      message_append store input msgId nowInsert updateTime =
        Except.ok (store', m) →
      normalize_text input.role = "user" →
      rustTrim input.text ≠ "" →
      ∀ r ∈ store.sessions, r.id = input.session_id → r.title = "" →
        { r with title := derivedTitle input.text,
                 updated_at_ms := updateTime } ∈ store'.sessions) ∧
    (∀ (store : Store) (input : SessionMessageAppendInput) (msgId : String)
        (nowInsert updateTime : Int) (store' : Store) (m : MessageRow),
      message_append store input msgId nowInsert updateTime =
        Except.ok (store', m) →
      normalize_text input.role ≠ "user" →
      store'.sessions.map SessionRow.title =
        store.sessions.map SessionRow.title) ∧
    (derivedTitle (String.mk (List.replicate 200 'x'))).data.length = 59 := by
  refine ⟨?_, ?_, by decide⟩
  · intro store input msgId nowInsert updateTime store' m hok hrole htext r hr hrid
      hrtitle
    have hany : store.sessions.any (fun s => s.id == input.session_id) = true :=
      List.any_eq_true.mpr ⟨r, hr, by simp [hrid]⟩
    have happ : message_append store input msgId nowInsert updateTime =
        Except.ok
          ({ sessions := store.sessions.map
               (messageAppendRowUpdate input.session_id
                 (infer_title_from_message input.role input.text) updateTime),
             messages := store.messages ++
               [{ id := msgId, session_id := input.session_id,
                  role := input.role, text := input.text,
                  status := input.status,
                  created_at_ms := input.created_at_ms.getD nowInsert }] },
           { id := msgId, session_id := input.session_id, role := input.role,
             text := input.text, status := input.status,
             created_at_ms := input.created_at_ms.getD nowInsert }) := by
      unfold message_append
      rw [if_neg (by simp [hany])]
    rw [happ] at hok
    obtain ⟨hstore, -⟩ := Prod.mk.inj (Except.ok.inj hok)
    subst hstore
    refine List.mem_map.mpr ⟨r, hr, ?_⟩
    unfold messageAppendRowUpdate
    rw [if_pos (by simp [hrid])]
    rw [aux_infer_title_user hrole htext, hrtitle]
    rfl
  · intro store input msgId nowInsert updateTime store' m hok hrole
    by_cases hany : store.sessions.any (fun s => s.id == input.session_id) = true
    · have happ : message_append store input msgId nowInsert updateTime =
          Except.ok
            ({ sessions := store.sessions.map
                 (messageAppendRowUpdate input.session_id
                   (infer_title_from_message input.role input.text) updateTime),
               messages := store.messages ++
                 [{ id := msgId, session_id := input.session_id,
                    role := input.role, text := input.text,
                    status := input.status,
                    created_at_ms := input.created_at_ms.getD nowInsert }] },
             { id := msgId, session_id := input.session_id, role := input.role,
               text := input.text, status := input.status,
               created_at_ms := input.created_at_ms.getD nowInsert }) := by
        unfold message_append
        rw [if_neg (by simp [hany])]
      rw [happ] at hok
      obtain ⟨hstore, -⟩ := Prod.mk.inj (Except.ok.inj hok)
      subst hstore
      simp only [List.map_map]
      refine List.map_congr_left ?_
      intro r _
      simp only [Function.comp_apply]
      unfold messageAppendRowUpdate
      rw [aux_infer_title_nonuser hrole]
      by_cases hid : (r.id == input.session_id) = true
      · rw [if_pos hid]
      · rw [if_neg hid]
    · unfold message_append at hok
      rw [if_pos (by simpa using hany)] at hok
      cases hok

/-- Claim C6, counterexample to the claim as stated: a 200-code-point user
message consisting of the letter a followed by 199 spaces, appended to a
session with an empty title, produces the title "a" (1 code point, not 59). -/
theorem c6_title_counterexample :
    c6Text.data.length = 200 ∧
    message_append c6Store c6Input "m1" 0 7 =
      Except.ok
        ({ sessions := [{ id := "s1", title := "a", app_name := "app",
                          user_id := "u1", phase := SessionPhase.IdeaInput,
                          read_only := false, created_at_ms := 0,
                          updated_at_ms := 7 }],
           messages := [{ id := "m1", session_id := "s1", role := "user",
                          text := c6Text, status := "done",
                          created_at_ms := 10 }] },
         { id := "m1", session_id := "s1", role := "user", text := c6Text,
           status := "done", created_at_ms := 10 }) ∧
    ("a" : String).data.length ≠ 59 :=
  ⟨by decide, by rfl, by decide⟩

/-- Claim C6, witness: the amended theorem applied to appending "hello" to a
session with an empty title. -/
theorem c6_title_inference_witness :
    (message_append c6Store c6HelloInput "m2" 0 7 =
      Except.ok (c6HelloAfter, c6HelloMsg)) ∧
    ({ id := "s1", title := derivedTitle "hello", app_name := "app",
       user_id := "u1", phase := SessionPhase.IdeaInput, read_only := false,
       created_at_ms := 0, updated_at_ms := 7 } : SessionRow) ∈
      c6HelloAfter.sessions :=
  ⟨by rfl,
   c6_title_inference_amended.1 c6Store c6HelloInput "m2" 0 7 c6HelloAfter
     c6HelloMsg (by rfl) (by decide) (by decide)
     { id := "s1", title := "", app_name := "app", user_id := "u1",
       phase := SessionPhase.IdeaInput, read_only := false,
       created_at_ms := 0, updated_at_ms := 0 }
     (by decide) (by decide) (by decide)⟩

/- ### Claim C1 -/

/-- Claim C1, counterexample to the claim as stated: in the happy run `wDone`
(SSE 200, one `[DONE]` frame, outcome Completed) a
`stream_progress(100, "Complete")` is emitted AFTER the final `stream_done`,
so `stream_done` is not the last event on the channel. -/
theorem c1_stream_done_counterexample :
    run_stream_task parse0 wDone = (wDoneEvents, Except.ok StreamOutcome.Completed) ∧
    wDoneEvents.get? 3 = some (Ev.done none) ∧
    wDoneEvents.get? 4 = some (Ev.progress 100 "Complete" 0 0) ∧
    wDoneEvents.length = 5 :=
  ⟨rfl, rfl, rfl, rfl⟩

theorem aux_emit_true_shape (st : StreamState) :
    (emit_progress_if_changed st true).1 = [] ∨
    ∃ c t, (emit_progress_if_changed st true).1 =
      [Ev.progress 100 "Complete" c t] := by
  have hrfl : emit_progress_if_changed st true =
      (if !(st.last_progress_percent != some 100 ||
            (match st.last_progress_stage with
             | some s => s != "Complete"
             | none => true)) then ([], st)
       else ([Ev.progress 100 "Complete" st.tools_completed st.tools_started],
             { st with last_progress_percent := some 100,
                       last_progress_stage := some "Complete" })) := rfl
  rw [hrfl]
  by_cases h : (st.last_progress_percent != some 100 ||
      (match st.last_progress_stage with
       | some s => s != "Complete"
       | none => true)) = true
  · right
    exact ⟨st.tools_completed, st.tools_started, by simp [h]⟩
  · left
    rw [Bool.not_eq_true] at h
    simp [h]

theorem aux_endsWithDone_append (a evs : List Ev) (h : endsWithDone evs) :
    endsWithDone (a ++ evs) := by
  obtain ⟨pre, u, rfl⟩ := h
  exact ⟨a ++ pre, u, by simp⟩

theorem aux_endsWithDoneProg_append (a evs : List Ev) (h : endsWithDoneProg evs) :
    endsWithDoneProg (a ++ evs) := by
  obtain ⟨pre, u, c, t, rfl⟩ := h
  exact ⟨a ++ pre, u, c, t, by simp⟩

theorem aux_tail_shape (pre : List Ev) (u : Option J) (st : StreamState) :
    endsWithDone ((pre ++ [Ev.done u]) ++ (emit_progress_if_changed st true).1) ∨
    endsWithDoneProg ((pre ++ [Ev.done u]) ++ (emit_progress_if_changed st true).1) := by
  rcases aux_emit_true_shape st with h | ⟨c, t, h⟩
  · left
    exact ⟨pre, u, by rw [h]; simp⟩
  · right
    exact ⟨pre, u, c, t, by rw [h]; simp⟩

theorem aux_endsWithDone_lit (pre : List Ev) (e : Ev) (u : Option J) :
    endsWithDone (pre ++ [e, Ev.done u]) :=
  ⟨pre ++ [e], u, by simp⟩

theorem aux_two_tail (pre : List Ev) (e : Ev) (u : Option J) (st : StreamState) :
    endsWithDone ((pre ++ [e, Ev.done u]) ++ (emit_progress_if_changed st true).1) ∨
    endsWithDoneProg ((pre ++ [e, Ev.done u]) ++ (emit_progress_if_changed st true).1) := by
  have hsplit : (pre ++ [e, Ev.done u]) = ((pre ++ [e]) ++ [Ev.done u]) := by simp
  rw [hsplit]
  exact aux_tail_shape (pre ++ [e]) u st

theorem aux_sse_ok_shape (parse : String → Option J) (resp : SseResponse)
    (evs : List Ev) (o : StreamOutcome)
    (h : run_sse_stream parse resp = (evs, Except.ok o)) :
    endsWithDone evs ∨ endsWithDoneProg evs := by
  unfold run_sse_stream at h
  split at h
  · exact absurd (congrArg Prod.snd h) (by simp)
  · split at h
    · exact absurd (congrArg Prod.snd h) (by simp)
    · simp only [] at h
      split at h
      · exact absurd (congrArg Prod.snd h) (by simp)
      · obtain ⟨hevs, -⟩ := Prod.mk.inj h
        subst hevs
        exact aux_tail_shape _ _ _
      · obtain ⟨hevs, -⟩ := Prod.mk.inj h
        subst hevs
        exact aux_tail_shape _ _ _
      · obtain ⟨hevs, -⟩ := Prod.mk.inj h
        subst hevs
        exact aux_two_tail _ _ _ _

theorem aux_fallback_ok_shape (parse : String → Option J)
    (rr : Except String (Nat × String)) (ss : Option Nat)
    (evs : List Ev) (o : StreamOutcome)
    (h : run_non_streaming_fallback parse rr ss = (evs, Except.ok o)) :
    endsWithDone evs ∨ endsWithDoneProg evs := by
  unfold run_non_streaming_fallback at h
  split at h
  · exact absurd (congrArg Prod.snd h) (by simp)
  · split at h
    · simp only [] at h
      obtain ⟨hevs, -⟩ := Prod.mk.inj h
      subst hevs
      left
      exact ⟨[_], none, rfl⟩
    · split at h
      · exact absurd (congrArg Prod.snd h) (by simp)
      · split at h
        · exact absurd (congrArg Prod.snd h) (by simp)
        · simp only [] at h
          obtain ⟨hevs, -⟩ := Prod.mk.inj h
          subst hevs
          exact aux_tail_shape _ _ _

/-- Claim C1 (amended): on every non-orphaned run (the task returns rather
than aborting) the first emitted event is `stream_open`, and the event list
either ends with `stream_done`, or ends with a single final
`stream_progress(100, "Complete")` emitted immediately after `stream_done`;
no other event follows `stream_done`. -/
theorem c1_event_ordering_amended :
    ∀ (parse : String → Option J) (w : World) (evs : List Ev)
      (o : StreamOutcome),
      run_stream_task parse w = (evs, Except.ok o) →
      evs.head? = some Ev.streamOpen ∧
        (endsWithDone evs ∨ endsWithDoneProg evs) := by
  intro parse w evs o h
  unfold run_stream_task at h
  split at h
  · exact absurd (congrArg Prod.snd h) (by simp)
  · simp only [] at h
    split at h
    · obtain ⟨hevs, -⟩ := Prod.mk.inj h
      subst hevs
      refine ⟨rfl, ?_⟩
      rename_i outc hsr
      have hfull : run_sse_stream parse w.sse =
          ((run_sse_stream parse w.sse).1, Except.ok outc) := by
        rw [← hsr]
      rcases aux_sse_ok_shape parse w.sse _ _ hfull with h' | h'
      · exact Or.inl (aux_endsWithDone_append _ _ h')
      · exact Or.inr (aux_endsWithDoneProg_append _ _ h')
    · split at h
      · rename_i failure hsr hfb
        rcases hfr : run_non_streaming_fallback parse w.runResp failure.status
          with ⟨fEvs, fres⟩
        rw [hfr] at h
        obtain ⟨hevs, hres⟩ := Prod.mk.inj h
        subst hevs
        cases fres with
        | error e => exact absurd hres (by simp)
        | ok fo =>
          refine ⟨rfl, ?_⟩
          rcases aux_fallback_ok_shape parse w.runResp failure.status _ _ hfr
            with h' | h'
          · exact Or.inl (aux_endsWithDone_append _ _ h')
          · exact Or.inr (aux_endsWithDoneProg_append _ _ h')
      · obtain ⟨hevs, -⟩ := Prod.mk.inj h
        subst hevs
        exact ⟨rfl, Or.inl (aux_endsWithDone_lit _ _ _)⟩

/-- Claim C1, witness: the amended theorem applied to the happy `wDone` run. -/
theorem c1_event_ordering_witness :
    run_stream_task parse0 wDone = (wDoneEvents, Except.ok StreamOutcome.Completed) ∧
    (wDoneEvents.head? = some Ev.streamOpen ∧
      (endsWithDone wDoneEvents ∨ endsWithDoneProg wDoneEvents)) :=
  ⟨rfl, c1_event_ordering_amended parse0 wDone wDoneEvents StreamOutcome.Completed rfl⟩

/- ### Claim C7 -/

theorem aux_pair_adjacent (A P : List Ev) (u : Option J)
    (r : Except SseFailure StreamOutcome) :
    ∃ pre u' post,
      ((A ++ [Ev.error "Run cancelled." false, Ev.done u]) ++ P, r) =
        (pre ++ Ev.error "Run cancelled." false :: Ev.done u' :: post, r) :=
  ⟨A, u, P, by simp⟩

theorem aux_pair_adjacent2 (A B post : List Ev) (u : Option J)
    (r : Except String StreamOutcome) :
    ∃ pre u' post',
      (A ++ (B ++ Ev.error "Run cancelled." false :: Ev.done u :: post), r) =
        (pre ++ Ev.error "Run cancelled." false :: Ev.done u' :: post', r) :=
  ⟨A ++ B, u, post, by simp⟩

theorem aux_sse_cancel (parse : String → Option J) (status : Nat)
    (body : String) (steps : List ReadStep) (h2 : is2xx status = true)
    (hcancel : (sse_loop parse steps initialLoopSt).2.2 = LoopExit.cancelled) :
    ∃ pre u post,
      run_sse_stream parse (SseResponse.resp status body steps) =
        (pre ++ Ev.error "Run cancelled." false :: Ev.done u :: post,
         Except.ok StreamOutcome.Failed) := by
  unfold run_sse_stream
  simp only []
  rw [if_neg (by simp [h2])]
  split
  · rename_i msg heq
    rw [hcancel] at heq
    cases heq
  · rename_i heq
    rw [hcancel] at heq
    cases heq
  · rename_i heq
    rw [hcancel] at heq
    cases heq
  · exact aux_pair_adjacent _ _ _ _

/-- Claim C7: on every streaming run whose cancellation token fires while
reading the SSE stream (the read loop exits with `cancelled`, discarding the
remaining input), the channel carries a
`stream_error("Run cancelled.", retryable=false)` immediately followed by
`stream_done`, and the task's outcome is Failed. -/
theorem c7_cancellation :
    ∀ (parse : String → Option J) (w : World) (status : Nat) (body : String)
      (steps : List ReadStep),
      w.ensureResult = Except.ok () →
      w.sse = SseResponse.resp status body steps →
      is2xx status = true →
      (sse_loop parse steps initialLoopSt).2.2 = LoopExit.cancelled →
      ∃ pre u post,
        run_stream_task parse w =
          (pre ++ Ev.error "Run cancelled." false :: Ev.done u :: post,
           Except.ok StreamOutcome.Failed) := by
  intro parse w status body steps hens hsse h2 hcancel
  obtain ⟨pre, u, post, hs⟩ := aux_sse_cancel parse status body steps h2 hcancel
  unfold run_stream_task
  simp only [hens, hsse, hs]
  exact aux_pair_adjacent2 _ _ _ _ _

/-- Claim C7, witness: the theorem applied to a run cancelled at the first
read. -/
theorem c7_cancellation_witness :
    (wCancel.ensureResult = Except.ok () ∧
     wCancel.sse = SseResponse.resp 200 "" [ReadStep.cancelled] ∧
     is2xx 200 = true ∧
     (sse_loop parse0 [ReadStep.cancelled] initialLoopSt).2.2 =
       LoopExit.cancelled) ∧
    ∃ pre u post,
      run_stream_task parse0 wCancel =
        (pre ++ Ev.error "Run cancelled." false :: Ev.done u :: post,
         Except.ok StreamOutcome.Failed) :=
  ⟨⟨rfl, rfl, rfl, rfl⟩,
   c7_cancellation parse0 wCancel 200 "" [ReadStep.cancelled] rfl rfl rfl rfl⟩

/- ### Claim C2 -/

/-- Claim C2, counterexample to the claim as stated: in the successful run
`wTools` (model text in the first frame, a functionCall in the second), the
emitted percent sequence is 5, 12, 90, 25, 100 — the fourth progress event
drops from 90 to 25 — yet the outcome is Completed. -/
theorem c2_progress_counterexample :
    progressPercents (run_stream_task c2Parse wTools).1 = [5, 12, 90, 25, 100] ∧
    (run_stream_task c2Parse wTools).2 = Except.ok StreamOutcome.Completed ∧
    (progressPercents (run_stream_task c2Parse wTools).1).get? 2 = some 90 ∧
    (progressPercents (run_stream_task c2Parse wTools).1).get? 3 = some 25 ∧
    ¬ (90 ≤ 25) :=
  ⟨by rfl, by rfl, by rfl, by rfl, by decide⟩

theorem aux_snapshot_false_le (st : StreamState) :
    (progress_snapshot st false).1 ≤ 92 := by
  have hrfl : progress_snapshot st false =
      (if st.tools_started > 0 then
        if min st.tools_completed (max (max st.tools_started st.tools_completed) 1) <
            max (max st.tools_started st.tools_completed) 1 then
          (min ((51 * (max (max st.tools_started st.tools_completed) 1) +
            110 * (min st.tools_completed (max (max st.tools_started st.tools_completed) 1))) /
           (2 * (max (max st.tools_started st.tools_completed) 1))) 88,
           "Running tools (" ++
             toString (min st.tools_completed (max (max st.tools_started st.tools_completed) 1)) ++
             "/" ++ toString (max (max st.tools_started st.tools_completed) 1) ++ ")")
        else if st.saw_model_text then (92, "Synthesizing report")
        else (88, "Summarizing tool output")
      else if st.saw_model_text then (90, "Finalizing response")
      else (12, "Understanding request")) := rfl
  rw [hrfl]
  split
  · split
    · exact le_trans (Nat.min_le_right _ _) (by omega)
    · split
      · exact by decide
      · exact by decide
  · split
    · exact by decide
    · exact by decide

theorem aux_emit_false_progOK (st : StreamState) (h : progOK st) :
    progOK (emit_progress_if_changed st false).2 := by
  unfold emit_progress_if_changed
  simp only []
  by_cases hc : (!(st.last_progress_percent != some (progress_snapshot st false).1 ||
      (match st.last_progress_stage with
       | some s => s != (progress_snapshot st false).2
       | none => true))) = true
  · rw [if_pos hc]
    exact h
  · rw [if_neg hc]
    intro p hp
    have hp' : some (progress_snapshot st false).1 = some p := hp
    obtain rfl := Option.some.inj hp'
    exact aux_snapshot_false_le st

theorem aux_emit_false_counts (st : StreamState) :
    (emit_progress_if_changed st false).2.tools_started = st.tools_started ∧
    (emit_progress_if_changed st false).2.tools_completed = st.tools_completed := by
  unfold emit_progress_if_changed
  simp only []
  by_cases hc : (!(st.last_progress_percent != some (progress_snapshot st false).1 ||
      (match st.last_progress_stage with
       | some s => s != (progress_snapshot st false).2
       | none => true))) = true
  · rw [if_pos hc]
    exact ⟨rfl, rfl⟩
  · rw [if_neg hc]
    exact ⟨rfl, rfl⟩

theorem aux_pe_meta_pres (e : J) (st : StreamState) :
    (pe_meta e st).2.last_progress_percent = st.last_progress_percent ∧
    (pe_meta e st).2.tools_started = st.tools_started ∧
    (pe_meta e st).2.tools_completed = st.tools_completed := by
  unfold pe_meta
  split
  · split
    · exact ⟨rfl, rfl, rfl⟩
    · exact ⟨rfl, rfl, rfl⟩
  · exact ⟨rfl, rfl, rfl⟩

theorem aux_pe_error_pres (e : J) (st : StreamState) :
    (pe_error e st).2.last_progress_percent = st.last_progress_percent ∧
    (pe_error e st).2.tools_started = st.tools_started ∧
    (pe_error e st).2.tools_completed = st.tools_completed := by
  unfold pe_error
  split
  · exact ⟨rfl, rfl, rfl⟩
  · exact ⟨rfl, rfl, rfl⟩

theorem aux_pe_message_pres (e : J) (st : StreamState) :
    (pe_message e st).2.last_progress_percent = st.last_progress_percent ∧
    (pe_message e st).2.tools_started = st.tools_started ∧
    (pe_message e st).2.tools_completed = st.tools_completed := by
  unfold pe_message
  split
  · simp only []
    split
    · exact ⟨rfl, rfl, rfl⟩
    · exact ⟨rfl, rfl, rfl⟩
  · exact ⟨rfl, rfl, rfl⟩

theorem aux_pe_toolStep_lastp (st : StreamState) (tool : ToolSignal) :
    (pe_toolStep st tool).last_progress_percent = st.last_progress_percent := by
  unfold pe_toolStep
  split
  · rfl
  · split
    · simp only []
      split
      · rfl
      · rfl
    · rfl

theorem aux_pe_toolStep_inv (st : StreamState) (tool : ToolSignal)
    (h : toolsInv st) : toolsInv (pe_toolStep st tool) := by
  unfold pe_toolStep toolsInv at *
  split
  · show st.tools_completed ≤ st.tools_started + 1
    omega
  · split
    · simp only []
      split
      · show st.tools_completed + 1 ≤ st.tools_completed + 1
        omega
      · rename_i hle
        have hle' : ¬ (st.tools_completed + 1 > st.tools_started) := hle
        show st.tools_completed + 1 ≤ st.tools_started
        omega
    · exact h

theorem aux_toolfold_lastp (sigs : List ToolSignal) :
    ∀ (acc : List Ev × StreamState),
      ((sigs.foldl
        (fun acc tool =>
          (acc.1 ++ [Ev.tool tool.phase tool.name tool.query tool.detail],
           pe_toolStep acc.2 tool)) acc).2).last_progress_percent =
      acc.2.last_progress_percent := by
  induction sigs with
  | nil => intro acc; rfl
  | cons s rest ih =>
    intro acc
    rw [List.foldl_cons, ih]
    exact aux_pe_toolStep_lastp acc.2 s

theorem aux_toolfold_inv (sigs : List ToolSignal) :
    ∀ (acc : List Ev × StreamState), toolsInv acc.2 →
      toolsInv ((sigs.foldl
        (fun acc tool =>
          (acc.1 ++ [Ev.tool tool.phase tool.name tool.query tool.detail],
           pe_toolStep acc.2 tool)) acc).2) := by
  induction sigs with
  | nil => intro acc h; exact h
  | cons s rest ih =>
    intro acc h
    rw [List.foldl_cons]
    exact ih _ (aux_pe_toolStep_inv acc.2 s h)

theorem aux_pe_tools_lastp (e : J) (st : StreamState) :
    (pe_tools e st).2.last_progress_percent = st.last_progress_percent := by
  unfold pe_tools
  exact aux_toolfold_lastp _ _

theorem aux_pe_tools_inv (e : J) (st : StreamState) (h : toolsInv st) :
    toolsInv (pe_tools e st).2 := by
  unfold pe_tools
  exact aux_toolfold_inv _ _ h

theorem aux_process_event_progOK (e : J) (st : StreamState) (u : Option J)
    (h : progOK st) : progOK (process_event e st u).2.1 := by
  unfold process_event
  simp only []
  apply aux_emit_false_progOK
  intro p hp
  apply h p
  rw [← hp]
  rw [(aux_pe_message_pres e _).1, aux_pe_tools_lastp, (aux_pe_error_pres e _).1,
    (aux_pe_meta_pres e st).1]

theorem aux_process_event_inv (e : J) (st : StreamState) (u : Option J)
    (h : toolsInv st) : toolsInv (process_event e st u).2.1 := by
  unfold process_event
  simp only []
  have h1 : toolsInv (pe_meta e st).2 := by
    unfold toolsInv
    rw [(aux_pe_meta_pres e st).2.1, (aux_pe_meta_pres e st).2.2]
    exact h
  have h2 : toolsInv (pe_error e (pe_meta e st).2).2 := by
    unfold toolsInv
    rw [(aux_pe_error_pres e _).2.1, (aux_pe_error_pres e _).2.2]
    exact h1
  have h3 := aux_pe_tools_inv e (pe_error e (pe_meta e st).2).2 h2
  have h4 : toolsInv (pe_message e (pe_tools e (pe_error e (pe_meta e st).2).2).2).2 := by
    unfold toolsInv
    rw [(aux_pe_message_pres e _).2.1, (aux_pe_message_pres e _).2.2]
    exact h3
  unfold toolsInv
  rw [(aux_emit_false_counts _).1, (aux_emit_false_counts _).2]
  exact h4

theorem aux_evfold_progOK (events : List J) :
    ∀ (acc : List Ev × StreamState × Option J), progOK acc.2.1 →
      progOK ((events.foldl (fun acc e =>
        let r := process_event e acc.2.1 acc.2.2
        (acc.1 ++ r.1, r.2.1, r.2.2)) acc).2.1) := by
  induction events with
  | nil => intro acc h; exact h
  | cons e rest ih =>
    intro acc h
    rw [List.foldl_cons]
    exact ih _ (aux_process_event_progOK e acc.2.1 acc.2.2 h)

theorem aux_evfold_inv (events : List J) :
    ∀ (acc : List Ev × StreamState × Option J), toolsInv acc.2.1 →
      toolsInv ((events.foldl (fun acc e =>
        let r := process_event e acc.2.1 acc.2.2
        (acc.1 ++ r.1, r.2.1, r.2.2)) acc).2.1) := by
  induction events with
  | nil => intro acc h; exact h
  | cons e rest ih =>
    intro acc h
    rw [List.foldl_cons]
    exact ih _ (aux_process_event_inv e acc.2.1 acc.2.2 h)

theorem aux_process_events_progOK (events : List J) (st : StreamState)
    (u : Option J) (h : progOK st) :
    progOK (process_events events st u).2.1 := by
  unfold process_events
  exact aux_evfold_progOK events _ h

theorem aux_process_events_inv (events : List J) (st : StreamState)
    (u : Option J) (h : toolsInv st) :
    toolsInv (process_events events st u).2.1 := by
  unfold process_events
  exact aux_evfold_inv events _ h

theorem aux_consume_progOK (parse : String → Option J) (st : StreamState)
    (u : Option J) (dls : List String) (h : progOK st) :
    progOK (consume_sse_event parse st u dls).state := by
  unfold consume_sse_event
  split
  · exact h
  · simp only []
    split
    · exact h
    · split
      · exact h
      · split
        · exact h
        · exact aux_process_events_progOK _ _ _ h

theorem aux_process_line_progOK (parse : String → Option J) (ls : LoopSt)
    (line : List Char) (h : progOK ls.state) :
    progOK (process_line parse ls line).2.state := by
  unfold process_line
  simp only []
  split
  · split
    · exact aux_consume_progOK parse _ _ _ h
    · split
      · exact h
      · exact h
  · split
    · exact aux_consume_progOK parse _ _ _ h
    · split
      · exact h
      · exact h

theorem aux_linefold_progOK (parse : String → Option J)
    (lines : List (List Char)) :
    ∀ (acc : List Ev × LoopSt), progOK acc.2.state →
      progOK ((lines.foldl (fun acc line =>
        let pr := process_line parse acc.2 line
        (acc.1 ++ pr.1, pr.2)) acc).2.state) := by
  induction lines with
  | nil => intro acc h; exact h
  | cons l rest ih =>
    intro acc h
    rw [List.foldl_cons]
    exact ih _ (aux_process_line_progOK parse acc.2 l h)

theorem aux_process_chunk_progOK (parse : String → Option J) (ls : LoopSt)
    (data : String) (h : progOK ls.state) :
    progOK (process_chunk parse ls data).2.state := by
  unfold process_chunk
  exact aux_linefold_progOK parse _ _ h

theorem aux_sse_loop_progOK (parse : String → Option J) :
    ∀ (steps : List ReadStep) (ls : LoopSt), progOK ls.state →
      progOK ((sse_loop parse steps ls).2.1).state := by
  intro steps
  induction steps with
  | nil =>
    intro ls h
    unfold sse_loop
    split
    · exact h
    · exact h
  | cons s rest ih =>
    intro ls h
    unfold sse_loop
    split
    · exact h
    · split
      · exact h
      · exact h
      · exact ih _ (aux_process_chunk_progOK parse ls _ h)

theorem aux_flush_progOK (parse : String → Option J) (ls : LoopSt)
    (h : progOK ls.state) :
    progOK (flush_residual parse ls).2.state := by
  unfold flush_residual
  simp only []
  split
  · split
    · exact aux_consume_progOK parse _ _ _ h
    · exact aux_consume_progOK parse _ _ _ h
  · exact aux_consume_progOK parse _ _ _ h

theorem aux_initState_progOK : progOK initState := by
  intro p hp
  cases hp

theorem aux_emit_true_emits (st : StreamState) (h : progOK st) :
    (emit_progress_if_changed st true).1 =
      [Ev.progress 100 "Complete" st.tools_completed st.tools_started] := by
  have hrfl : emit_progress_if_changed st true =
      (if !(st.last_progress_percent != some 100 ||
            (match st.last_progress_stage with
             | some s => s != "Complete"
             | none => true)) then ([], st)
       else ([Ev.progress 100 "Complete" st.tools_completed st.tools_started],
             { st with last_progress_percent := some 100,
                       last_progress_stage := some "Complete" })) := rfl
  rw [hrfl]
  have hne : (st.last_progress_percent != some 100) = true := by
    rcases hlast : st.last_progress_percent with _ | p
    · rfl
    · have := h p hlast
      simp only [bne_iff_ne]
      intro hcontra
      obtain rfl := Option.some.inj hcontra
      omega
  rw [hne]
  rfl

theorem aux_last_100_append (A B : List Ev)
    (h : (progressPercents B).getLast? = some 100) :
    (progressPercents (A ++ B)).getLast? = some 100 := by
  unfold progressPercents at *
  rw [List.filterMap_append, List.getLast?_append, h]
  rfl

theorem aux_percents_done_emit (A : List Ev) (u : Option J) (st : StreamState)
    (h : progOK st) :
    (progressPercents ((A ++ [Ev.done u]) ++ (emit_progress_if_changed st true).1)).getLast? =
      some 100 := by
  rw [aux_emit_true_emits st h]
  unfold progressPercents
  rw [List.filterMap_append, List.getLast?_append]
  rfl

theorem aux_initialLoopSt_progOK : progOK initialLoopSt.state :=
  aux_emit_false_progOK initState aux_initState_progOK

theorem aux_sse_last_100 (parse : String → Option J) (resp : SseResponse)
    (evs : List Ev) (o : StreamOutcome)
    (h : run_sse_stream parse resp = (evs, Except.ok o)) :
    (progressPercents evs).getLast? = some 100 := by
  unfold run_sse_stream at h
  split at h
  · exact absurd (congrArg Prod.snd h) (by simp)
  · split at h
    · exact absurd (congrArg Prod.snd h) (by simp)
    · simp only [] at h
      split at h
      · exact absurd (congrArg Prod.snd h) (by simp)
      · rename_i steps heq
        obtain ⟨hevs, -⟩ := Prod.mk.inj h
        subst hevs
        exact aux_percents_done_emit _ _ _
          (aux_sse_loop_progOK parse _ initialLoopSt aux_initialLoopSt_progOK)
      · rename_i steps heq
        obtain ⟨hevs, -⟩ := Prod.mk.inj h
        subst hevs
        exact aux_percents_done_emit _ _ _
          (aux_flush_progOK parse _
            (aux_sse_loop_progOK parse _ initialLoopSt aux_initialLoopSt_progOK))
      · rename_i steps heq
        obtain ⟨hevs, -⟩ := Prod.mk.inj h
        subst hevs
        have hassoc :
            ∀ (X : List Ev) (e : Ev) (u : Option J) (P : List Ev),
              (X ++ [e, Ev.done u]) ++ P = ((X ++ [e]) ++ [Ev.done u]) ++ P := by
          intro X e u P
          simp
        rw [hassoc]
        exact aux_percents_done_emit _ _ _
          (aux_flush_progOK parse _
            (aux_sse_loop_progOK parse _ initialLoopSt aux_initialLoopSt_progOK))

theorem aux_fallback_last_100 (parse : String → Option J)
    (rr : Except String (Nat × String)) (ss : Option Nat) (evs : List Ev)
    (h : run_non_streaming_fallback parse rr ss =
      (evs, Except.ok StreamOutcome.Completed)) :
    (progressPercents evs).getLast? = some 100 := by
  unfold run_non_streaming_fallback at h
  split at h
  · exact absurd (congrArg Prod.snd h) (by simp)
  · split at h
    · simp only [] at h
      obtain ⟨-, hres⟩ := Prod.mk.inj h
      cases hres
    · split at h
      · exact absurd (congrArg Prod.snd h) (by simp)
      · split at h
        · exact absurd (congrArg Prod.snd h) (by simp)
        · simp only [] at h
          obtain ⟨hevs, -⟩ := Prod.mk.inj h
          subst hevs
          exact aux_percents_done_emit _ _ _
            (aux_process_events_progOK _ _ _
              (aux_emit_false_progOK initState aux_initState_progOK))

/-- Claim C2 (amended): across every non-orphaned run that completes
successfully, the emitted progress sequence begins at percent 5 and its last
entry is percent 100; the sequence need not be non-decreasing in between (a
stream_progress in the 25–88 tool band can follow the 90 or 92 text stages
when a new tool call starts after model text, as the counterexample shows). -/
theorem c2_progress_amended :
    ∀ (parse : String → Option J) (w : World) (evs : List Ev),
      run_stream_task parse w = (evs, Except.ok StreamOutcome.Completed) →
      (progressPercents evs).head? = some 5 ∧
        (progressPercents evs).getLast? = some 100 := by
  intro parse w evs h
  unfold run_stream_task at h
  split at h
  · exact absurd (congrArg Prod.snd h) (by simp)
  · simp only [] at h
    split at h
    · rename_i outc hsr
      obtain ⟨hevs, hres⟩ := Prod.mk.inj h
      obtain rfl : outc = StreamOutcome.Completed := by
        cases hres
        rfl
      subst hevs
      refine ⟨rfl, ?_⟩
      have hfull : run_sse_stream parse w.sse =
          ((run_sse_stream parse w.sse).1, Except.ok StreamOutcome.Completed) := by
        rw [← hsr]
      exact aux_last_100_append _ _ (aux_sse_last_100 parse w.sse _ _ hfull)
    · split at h
      · rename_i failure hsr hfb
        rcases hfr : run_non_streaming_fallback parse w.runResp failure.status
          with ⟨fEvs, fres⟩
        rw [hfr] at h
        obtain ⟨hevs, hres⟩ := Prod.mk.inj h
        subst hevs
        cases fres with
        | error e => exact absurd hres (by simp)
        | ok fo =>
          obtain rfl : fo = StreamOutcome.Completed := by
            cases hres
            rfl
          refine ⟨rfl, ?_⟩
          exact aux_last_100_append _ _
            (aux_fallback_last_100 parse w.runResp failure.status _ hfr)
      · obtain ⟨-, hres⟩ := Prod.mk.inj h
        cases hres

/-- Claim C2, witness: the amended theorem applied to the happy `wDone` run,
whose percent sequence is 5, 12, 100. -/
theorem c2_progress_witness :
    run_stream_task parse0 wDone = (wDoneEvents, Except.ok StreamOutcome.Completed) ∧
    ((progressPercents wDoneEvents).head? = some 5 ∧
      (progressPercents wDoneEvents).getLast? = some 100) :=
  ⟨rfl, c2_progress_amended parse0 wDone wDoneEvents rfl⟩

/- ### Claim C10 -/

/-- Claim C10: processing any sequence of upstream events from the initial
per-request streaming state keeps tools_started at least tools_completed:
every functionCall signal increments tools_started, and every
functionResponse signal increments tools_completed with a clamp that raises
tools_started whenever tools_completed would exceed it, so the counter
invariant is preserved by every single signal from every state satisfying
it. -/
theorem c10_tools_invariant :
    (∀ events : List J, toolsInv (process_events events initState none).2.1) ∧
    (∀ (st : StreamState) (tool : ToolSignal),
      toolsInv st → toolsInv (pe_toolStep st tool)) :=
  ⟨fun events => aux_process_events_inv events initState none (Nat.le_refl 0),
   fun st tool h => aux_pe_toolStep_inv st tool h⟩

/-- Claim C10, witness: the per-signal clamp applied at a concrete state with
tools_started = tools_completed = 1 and a done signal. -/
theorem c10_tools_invariant_witness :
    toolsInv { last_model_text := "", saw_model_text := false,
               saw_error := false, tools_started := 1, tools_completed := 1,
               last_progress_percent := none, last_progress_stage := none,
               last_invocation_id := none : StreamState } ∧
    toolsInv (pe_toolStep
      { last_model_text := "", saw_model_text := false, saw_error := false,
        tools_started := 1, tools_completed := 1,
        last_progress_percent := none, last_progress_stage := none,
        last_invocation_id := none : StreamState }
      { phase := "done", name := "search", query := none, detail := none }) :=
  ⟨Nat.le_refl 1,
   c10_tools_invariant.2
     { last_model_text := "", saw_model_text := false, saw_error := false,
       tools_started := 1, tools_completed := 1,
       last_progress_percent := none, last_progress_stage := none,
       last_invocation_id := none }
     { phase := "done", name := "search", query := none, detail := none }
     (Nat.le_refl 1)⟩
